import Mathlib

/-!
Verification of the RTO dashboard aggregation pipeline
(`process_raw_data.py`, class `RawDataProcessor`).

Rows of one sector sheet are modelled by `Row`; a pandas `NaN` cell is
`none`, a present cell (including the empty string) is `some s`.  All
list-valued pandas operations (`filter`, `drop_duplicates`, `groupby`,
stable `sort`) are modelled on `List` preserving the source's semantics.
Python `float` arithmetic on the derived rates is modelled exactly on `ℚ`,
with Python's `round` (banker's rounding, half to even) as `pyRound`;
no property below depends on binary floating-point representation error.
-/

namespace RTO

/-- One outreach row of a sector sheet.  The columns used by
`process_sector_data`: `Source.Name`, `National ID`, `Response`,
`Scheduled`, `Arrived`, `Enrollment`.  `none` models a pandas `NaN`. -/
structure Row where
  sourceName : Option String
  nationalId : Option String
  response : Option String
  scheduled : Option String
  arrived : Option String
  enrollment : Option String
  deriving DecidableEq, Repr

/-- `count_unique_with_nulls(subset_df)` (`process_raw_data.py` 112-120):
`valid_ids = subset_df.dropna(subset=['National ID'])` keeps the rows whose
`National ID` is present (an empty-string ID is present, not `NaN`);
`drop_duplicates` leaves one row per distinct ID value, so its length is the
number of distinct present IDs.  `null_ids` keeps the rows whose ID `isna()`
**or** equals `''` — an empty-string ID therefore lands in both halves of the
sum. -/
def count_unique_with_nulls (subset_df : List Row) : Nat :=
  if subset_df.isEmpty then 0
  else
    (subset_df.filterMap Row.nationalId).dedup.length
      + (subset_df.filter (fun r => r.nationalId.isNone || r.nationalId == some "")).length

/-- The `total_population` computation of `process_sector_data`
(`process_raw_data.py` 89-96): `valid_id_rows = group[group['National ID'].notna()]`
deduplicated by ID, plus **all** rows with `isna()` ID.  Unlike
`count_unique_with_nulls` this splits on `notna`/`isna` only: an
empty-string ID is counted once among the valid IDs and never as a null. -/
def totalPopulation (group : List Row) : Nat :=
  (group.filterMap Row.nationalId).dedup.length
    + (group.filter (fun r => r.nationalId.isNone)).length

/-- Modelled from the spec (§4.2 Identity Resolver): partition a group into
"keyed" records (identity-key present **and non-blank**) and "unkeyed"
records (identity-key absent or blank); the unique-person count is the
number of distinct keys among the keyed records plus the number of unkeyed
records.  Stated here only to compare with what the code computes. -/
def specUniqueCount (group : List Row) : Nat :=
  ((group.filterMap Row.nationalId).filter (fun s => s != "")).dedup.length
    + (group.filter (fun r => r.nationalId.isNone || r.nationalId == some "")).length

theorem count_unique_with_nulls_eq (l : List Row) :
    count_unique_with_nulls l =
      (l.filterMap Row.nationalId).dedup.length
        + (l.filter (fun r => r.nationalId.isNone || r.nationalId == some "")).length := by
  cases l <;> simp [count_unique_with_nulls]

/-- Python's `round` rounds half to even (banker's rounding).  We model it
exactly on rationals; Python applies it to binary floats, whose
representation error can shift an exact tie, but no claim below depends on
tie direction or representation error. -/
def roundHalfEven (x : ℚ) : ℤ :=
  if x - ⌊x⌋ < 1/2 then ⌊x⌋
  else if 1/2 < x - ⌊x⌋ then ⌊x⌋ + 1
  else if ⌊x⌋ % 2 = 0 then ⌊x⌋ else ⌊x⌋ + 1

/-- `round(x, ndigits)` of Python, on exact rationals. -/
def pyRound (ndigits : Nat) (x : ℚ) : ℚ :=
  (roundHalfEven (x * 10 ^ ndigits) : ℚ) / 10 ^ ndigits

/-- The per-facility dictionary built at `process_raw_data.py` 136-152. -/
structure PhcData where
  phc_name : String
  total_population : Nat
  communicated : Nat
  accepted : Nat
  refused : Nat
  wrong_number : Nat
  no_response : Nat
  in_person_visits : Nat
  virtual_visits : Nat
  arrived : Nat
  enrolled : Nat
  acceptance_rate : ℚ
  enrollment_rate : ℚ
  communication_rate : ℚ
  deriving DecidableEq, Repr

/-- The body of the per-PHC loop of `process_sector_data`
(`process_raw_data.py` 85-152): `total_population` by the `notna`/`isna`
split of lines 89-96, each filtered metric by `count_unique_with_nulls`
on the corresponding pandas filter, and the three rates guarded against a
zero denominator and rounded to one decimal place. -/
def phcMetrics (phc_name : String) (group : List Row) : PhcData :=
  let total_population := totalPopulation group
  let communicated := count_unique_with_nulls (group.filter (fun r => r.response.isSome))
  let accepted := count_unique_with_nulls (group.filter (fun r => r.response == some "Accepted"))
  let refused := count_unique_with_nulls (group.filter (fun r => r.response == some "Refused"))
  let wrong_number :=
    count_unique_with_nulls (group.filter (fun r => r.response == some "Wrong number"))
  let no_response :=
    count_unique_with_nulls (group.filter (fun r => r.response == some "No response"))
  let in_person_visits :=
    count_unique_with_nulls (group.filter (fun r => r.scheduled == some "In-Person"))
  let virtual_visits :=
    count_unique_with_nulls (group.filter (fun r => r.scheduled == some "Virtual"))
  let arrived := count_unique_with_nulls (group.filter (fun r => r.arrived == some "Yes"))
  let enrolled := count_unique_with_nulls (group.filter (fun r => r.enrollment == some "Yes"))
  { phc_name := phc_name
    total_population := total_population
    communicated := communicated
    accepted := accepted
    refused := refused
    wrong_number := wrong_number
    no_response := no_response
    in_person_visits := in_person_visits
    virtual_visits := virtual_visits
    arrived := arrived
    enrolled := enrolled
    acceptance_rate :=
      pyRound 1 (if 0 < communicated then (accepted : ℚ) / communicated * 100 else 0)
    enrollment_rate :=
      pyRound 1 (if 0 < accepted then (enrolled : ℚ) / accepted * 100 else 0)
    communication_rate :=
      pyRound 1 (if 0 < total_population then (communicated : ℚ) / total_population * 100 else 0) }

/-- `name.strip()` from the left: drop leading whitespace.  Python's
argument-less `strip` removes Unicode whitespace; `Char.isWhitespace`
(space, tab, CR, LF) covers every character the pipeline meets. -/
def stripLeft (l : List Char) : List Char := l.dropWhile Char.isWhitespace

/-- `name.strip()` from the right: drop trailing whitespace. -/
def stripRight (l : List Char) : List Char := (l.reverse.dropWhile Char.isWhitespace).reverse

/-- Python `str.strip()`: whitespace removed from both ends. -/
def pyStrip (l : List Char) : List Char := stripRight (stripLeft l)

/-- Python `str.replace(pat, '')` for a non-empty `pat`: scan left to right,
delete each non-overlapping occurrence of `pat` and resume after it.
(`clean_phc_name` only calls it with `'.xlsx'`.)  The scan is written with
an explicit fuel — the input length, which the scan never exhausts, since
every step consumes at least one character — to keep the recursion
structural and hence kernel-computable. -/
def replaceAllGo (pat : List Char) : Nat → List Char → List Char
  | _, [] => []
  | 0, l => l
  | fuel + 1, c :: rest =>
    if pat.isPrefixOf (c :: rest) ∧ pat ≠ [] then
      replaceAllGo pat fuel ((c :: rest).drop pat.length)
    else
      c :: replaceAllGo pat fuel rest

/-- `name.replace(pat, '')` (`process_raw_data.py` 167). -/
def replaceAll (pat l : List Char) : List Char := replaceAllGo pat l.length l

/-- The `for prefix_ in prefixes_to_remove: if name.startswith ... break`
loop of `clean_phc_name` (`process_raw_data.py` 178-181): remove the first
matching entry and stop; later entries are not tried. -/
def stripFirstMatching : List (List Char) → List Char → List Char
  | [], name => name
  | p :: ps, name => if p.isPrefixOf name then name.drop p.length else stripFirstMatching ps name

/-- `'.xlsx'`. -/
def xlsxExt : List Char := ".xlsx".toList

/-- The `prefixes_to_remove` list of `clean_phc_name` (`process_raw_data.py`
170-176), with the exact code points of the source literals (they are
mojibake in the source file, invisible soft hyphens U+00AD included, and
are reproduced here byte for byte). -/
def prefixes_to_remove : List (List Char) :=
  ["Ù…Ø±ÙƒØ² Ø§Ù„Ø±Ø¹Ø§ÙŠØ© Ø§Ù„ØµØ­ÙŠØ© Ø§Ù„Ø£ÙˆÙ„ÙŠØ© Ø¨".toList,
   "Ù…Ø±ÙƒØ² Ø§Ù„Ø±Ø¹Ø§ÙŠØ© Ø§Ù„ØµØ­ÙŠØ© Ø§Ù„Ø£ÙˆÙ„ÙŠØ©".toList,
   "Ù…Ø±ÙƒØ² ØµØ­ÙŠ ".toList,
   "Primary Health Care Center".toList,
   "PHC ".toList]

/-- `clean_phc_name` (`process_raw_data.py` 161-183): `NaN` becomes `''`;
otherwise **every** occurrence of `'.xlsx'` is deleted (`str.replace`, not
only a trailing one), then the first matching prefix of
`prefixes_to_remove` is removed (`break` after the first hit), then the
result is stripped of surrounding whitespace.  Strings are modelled as
`List Char`. -/
def clean_phc_name : Option (List Char) → List Char
  | none => []
  | some s => pyStrip (stripFirstMatching prefixes_to_remove (replaceAll xlsxExt s))

/-- Collapse every run of whitespace to a single space (used only by the
spec-side normalizer below; `clean_phc_name` itself has no such step).
Fueled like `replaceAllGo` to stay structurally recursive. -/
def collapseWsGo : Nat → List Char → List Char
  | _, [] => []
  | 0, l => l
  | fuel + 1, c :: rest =>
    if c.isWhitespace then ' ' :: collapseWsGo fuel (rest.dropWhile Char.isWhitespace)
    else c :: collapseWsGo fuel rest

/-- Collapse internal whitespace runs to single spaces. -/
def collapseWs (l : List Char) : List Char := collapseWsGo l.length l

/-- Strip one trailing `'.xlsx'` if present (the spec's wording). -/
def stripTrailingExt (l : List Char) : List Char :=
  if xlsxExt.isSuffixOf l then l.take (l.length - xlsxExt.length) else l

/-- Modelled from the spec (§4.1 Name Normalizer, quoted by C5): trim
surrounding whitespace, remove at most one prefix (first match in priority
order), strip a trailing file-extension-like suffix if present, collapse
internal whitespace runs to single spaces.  Stated only to compare with
`clean_phc_name`. -/
def specNormalize : Option (List Char) → List Char
  | none => []
  | some s =>
    collapseWs (stripTrailingExt (stripFirstMatching prefixes_to_remove (pyStrip s)))

/-- Code-point lexicographic order on strings: the order in which pandas
`groupby` (with its default `sort=True`) enumerates its string keys. -/
def lexLe : List Char → List Char → Bool
  | [], _ => true
  | _ :: _, [] => false
  | a :: as, b :: bs => if a < b then true else if b < a then false else lexLe as bs

/-- Insert a key into an ascending key list. -/
def insertAsc (k : List Char) : List (List Char) → List (List Char)
  | [] => [k]
  | x :: xs => if lexLe k x then k :: x :: xs else x :: insertAsc k xs

/-- Sort the distinct group keys ascending, as `groupby` yields them. -/
def sortKeysAsc : List (List Char) → List (List Char)
  | [] => []
  | k :: ks => insertAsc k (sortKeysAsc ks)

/-- One insertion step of a stable descending sort on `total_population`:
an element is placed after every earlier element with a strictly larger
*or equal* population has been kept, i.e. before the first element whose
population is `≤` its own.  Folded over the list head-first this realizes
exactly the observable contract of CPython's stable `list.sort(key=...,
reverse=True)` at `process_raw_data.py` 157. -/
def insertPopDesc (x : PhcData) : List PhcData → List PhcData
  | [] => [x]
  | y :: ys => if x.total_population < y.total_population then y :: insertPopDesc x ys
               else x :: y :: ys

/-- `sector_data.sort(key=lambda x: x['total_population'], reverse=True)`:
a stable descending sort. -/
def sortPopDesc : List PhcData → List PhcData
  | [] => []
  | x :: xs => insertPopDesc x (sortPopDesc xs)

/-- `df['PHC_Clean']` (`process_raw_data.py` 76): the grouping key of a row. -/
def rowKey (r : Row) : List Char := clean_phc_name (r.sourceName.map String.toList)

/-- The `sector_data` list of `process_sector_data` as built by the
`groupby` loop (`process_raw_data.py` 79-154), before the final sort:
group the rows by `PHC_Clean` (pandas yields the distinct keys in
ascending order), skip the empty key (line 82; `clean_phc_name` never
returns `NaN`), and build each facility's metrics. -/
def sectorGroups (df : List Row) : List PhcData :=
  ((sortKeysAsc (df.map rowKey).dedup).filter (fun k => k != ([] : List Char))).map
    (fun k => phcMetrics (String.mk k) (df.filter (fun r => rowKey r == k)))

/-- `process_sector_data` (`process_raw_data.py` 72-159): the grouped
facility metrics, stably sorted by population, descending. -/
def process_sector_data (df : List Row) : List PhcData :=
  sortPopDesc (sectorGroups df)

/-- The `overview` dictionary of `calculate_overview_metrics`
(`process_raw_data.py` 187-199 plus the three rate keys added at 217-236). -/
structure Overview where
  total_population : Nat
  total_communicated : Nat
  total_accepted : Nat
  total_refused : Nat
  total_wrong_number : Nat
  total_no_response : Nat
  total_enrolled : Nat
  total_phc_centers : Nat
  total_arrived : Nat
  total_in_person : Nat
  total_virtual : Nat
  communication_rate : ℚ
  acceptance_rate : ℚ
  enrollment_rate : ℚ
  deriving DecidableEq, Repr

/-- The all-zero initial `overview` dictionary (`process_raw_data.py`
187-199; the rate keys do not exist yet, modelled as 0 here and always
overwritten before the record is returned). -/
def overviewInit : Overview :=
  { total_population := 0, total_communicated := 0, total_accepted := 0
    total_refused := 0, total_wrong_number := 0, total_no_response := 0
    total_enrolled := 0, total_phc_centers := 0, total_arrived := 0
    total_in_person := 0, total_virtual := 0
    communication_rate := 0, acceptance_rate := 0, enrollment_rate := 0 }

/-- The inner loop body of `calculate_overview_metrics`
(`process_raw_data.py` 204-214): add one facility's counts. -/
def addPhc (o : Overview) (phc : PhcData) : Overview :=
  { o with
    total_population := o.total_population + phc.total_population
    total_communicated := o.total_communicated + phc.communicated
    total_accepted := o.total_accepted + phc.accepted
    total_refused := o.total_refused + phc.refused
    total_wrong_number := o.total_wrong_number + phc.wrong_number
    total_no_response := o.total_no_response + phc.no_response
    total_enrolled := o.total_enrolled + phc.enrolled
    total_arrived := o.total_arrived + phc.arrived
    total_in_person := o.total_in_person + phc.in_person_visits
    total_virtual := o.total_virtual + phc.virtual_visits }

/-- `calculate_overview_metrics` (`process_raw_data.py` 185-238): sum every
facility's counts verbatim across all loaded sectors, count the facilities,
then recompute the three rates from the summed counts, each guarded against
a zero denominator and rounded to two decimal places. -/
def calculate_overview_metrics (sectors_data : List (String × List PhcData)) : Overview :=
  let counts := sectors_data.foldl
    (fun acc sd =>
      sd.2.foldl addPhc { acc with total_phc_centers := acc.total_phc_centers + sd.2.length })
    overviewInit
  { counts with
    communication_rate :=
      if 0 < counts.total_population then
        pyRound 2 ((counts.total_communicated : ℚ) / counts.total_population * 100)
      else 0
    acceptance_rate :=
      if 0 < counts.total_communicated then
        pyRound 2 ((counts.total_accepted : ℚ) / counts.total_communicated * 100)
      else 0
    enrollment_rate :=
      if 0 < counts.total_accepted then
        pyRound 2 ((counts.total_enrolled : ℚ) / counts.total_accepted * 100)
      else 0 }

/-- The `dashboard_data` dictionary persisted by `process_raw_data`
(`process_raw_data.py` 13-17, 62-63). -/
structure Snapshot where
  last_updated : String
  sectors : List (String × List PhcData)
  overview : Overview
  deriving Repr

/-- `self.sectors` (`process_raw_data.py` 8). -/
def sectorSheets : List String :=
  ["western_sector", "eastern_sector", "northern_sector", "southern_sector"]

/-- `sector.replace('_sector', '')` (`process_raw_data.py` 44). -/
def sectorKey (s : String) : String := String.mk (replaceAll "_sector".toList s.toList)

/-- `process_raw_data` (`process_raw_data.py` 10-70), with its two
side-effect boundaries made explicit: `now` is `datetime.now().isoformat()`
and `load` is `pd.read_excel` per sector sheet, `none` modelling the
exception branch of lines 38-41 (`continue`).  Returns the snapshot and the
list of skipped sectors (reported by the `print` in the except branch). -/
def process_raw_data (now : String) (load : String → Option (List Row)) :
    Snapshot × List String :=
  let acc := sectorSheets.foldl
    (fun acc sector =>
      match load sector with
      | none => (acc.1, acc.2 ++ [sector])
      | some df => (acc.1 ++ [(sectorKey sector, process_sector_data df)], acc.2))
    ([], [])
  ({ last_updated := now, sectors := acc.1, overview := calculate_overview_metrics acc.1 },
   acc.2)

/-! ### Counting lemmas -/

theorem length_filterMap_isSome (l : List Row) :
    (l.filterMap Row.nationalId).length = (l.filter (fun r => r.nationalId.isSome)).length := by
  induction l with
  | nil => rfl
  | cons r t ih =>
    cases h : r.nationalId with
    | none => simpa [List.filterMap_cons, List.filter_cons, h] using ih
    | some v => simpa [List.filterMap_cons, List.filter_cons, h] using ih

theorem length_filter_isSome_add_isNone (l : List Row) :
    (l.filter (fun r => r.nationalId.isSome)).length
      + (l.filter (fun r => r.nationalId.isNone)).length = l.length := by
  induction l with
  | nil => rfl
  | cons r t ih =>
    cases h : r.nationalId <;> simp [List.filter_cons, h] <;> omega

theorem dedup_length_le {α : Type} [DecidableEq α] (l : List α) :
    l.dedup.length ≤ l.length :=
  (List.dedup_sublist l).length_le

theorem dedup_length_eq_iff {α : Type} [DecidableEq α] (l : List α) :
    l.dedup.length = l.length ↔ l.Nodup := by
  constructor
  · intro h
    rw [← List.dedup_eq_self]
    exact (List.dedup_sublist l).eq_of_length h
  · intro h
    rw [List.dedup_eq_self.2 h]

theorem dedup_length_le_of_sublist {α : Type} [DecidableEq α] {l₁ l₂ : List α}
    (h : l₁.Sublist l₂) : l₁.dedup.length ≤ l₂.dedup.length := by
  rw [← List.card_toFinset, ← List.card_toFinset]
  exact Finset.card_le_card fun a ha => List.mem_toFinset.2 (h.subset (List.mem_toFinset.1 ha))

/-- `count_unique_with_nulls` is monotone under taking a sublist of rows. -/
theorem count_unique_with_nulls_sublist_mono {S T : List Row} (h : S.Sublist T) :
    count_unique_with_nulls S ≤ count_unique_with_nulls T := by
  rw [count_unique_with_nulls_eq, count_unique_with_nulls_eq]
  exact Nat.add_le_add (dedup_length_le_of_sublist (h.filterMap _)) ((h.filter _).length_le)

theorem totalPopulation_le_length (l : List Row) : totalPopulation l ≤ l.length := by
  have h1 : (l.filterMap Row.nationalId).dedup.length ≤ (l.filterMap Row.nationalId).length :=
    dedup_length_le _
  have h2 := length_filterMap_isSome l
  have h3 := length_filter_isSome_add_isNone l
  unfold totalPopulation
  omega

theorem totalPopulation_eq_length_iff (l : List Row) :
    totalPopulation l = l.length ↔ (l.filterMap Row.nationalId).Nodup := by
  have h1 : (l.filterMap Row.nationalId).dedup.length ≤ (l.filterMap Row.nationalId).length :=
    dedup_length_le _
  have h2 := length_filterMap_isSome l
  have h3 := length_filter_isSome_add_isNone l
  rw [← dedup_length_eq_iff]
  unfold totalPopulation
  omega

/-- On a group with no blank (empty-string) identity key, the
`isna-or-blank` filter of `count_unique_with_nulls` agrees with the plain
`isna` filter of the `total_population` computation. -/
theorem filter_blank_eq_isNone {l : List Row} (h : ∀ r ∈ l, r.nationalId ≠ some "") :
    l.filter (fun r => r.nationalId.isNone || r.nationalId == some "") =
      l.filter (fun r => r.nationalId.isNone) := by
  apply List.filter_congr
  intro r hr
  have hb := h r hr
  cases hna : r.nationalId with
  | none => simp
  | some v =>
    rw [hna] at hb
    have hv : v ≠ "" := fun hv => hb (by rw [hv])
    simp [hv]

theorem filterMap_filter_blank_eq {l : List Row} (h : ∀ r ∈ l, r.nationalId ≠ some "") :
    (l.filterMap Row.nationalId).filter (fun s => s != "") = l.filterMap Row.nationalId := by
  rw [List.filter_eq_self]
  intro s hs
  obtain ⟨r, hr, hrs⟩ := List.mem_filterMap.1 hs
  have : s ≠ "" := fun he => h r hr (by rw [hrs, he])
  simpa using this

theorem count_unique_with_nulls_eq_totalPopulation {l : List Row}
    (h : ∀ r ∈ l, r.nationalId ≠ some "") :
    count_unique_with_nulls l = totalPopulation l := by
  rw [count_unique_with_nulls_eq, filter_blank_eq_isNone h, totalPopulation]

theorem specUniqueCount_eq_totalPopulation {l : List Row}
    (h : ∀ r ∈ l, r.nationalId ≠ some "") :
    specUniqueCount l = totalPopulation l := by
  rw [specUniqueCount, totalPopulation, filterMap_filter_blank_eq h, filter_blank_eq_isNone h]

theorem no_blank_of_filter {l : List Row} (p : Row → Bool)
    (h : ∀ r ∈ l, r.nationalId ≠ some "") :
    ∀ r ∈ l.filter p, r.nationalId ≠ some "" :=
  fun r hr => h r (List.mem_of_mem_filter hr)

/-- A record with facility key `"f"` and a *blank* (empty-string, not
absent) identity key: the input on which the two counting paths of the
code diverge. -/
def blankRow : Row := ⟨some "f", some "", some "Accepted", none, none, none⟩

/-! ### C1 -/

/-- C1, counterexample.  On a group of two records whose identity-key is
present but blank (`''`), the spec's partition (blank = unkeyed, so two
distinct persons) gives 2, but the code's `total_population` treats `''`
as a present key and collapses the two records to 1; and on the same group
`count_unique_with_nulls` — the function used for every filtered metric —
returns 3 (it counts each blank-keyed record once as a null *and* the
blank key once as a valid ID), differing from the `total_population` rule.
So the claimed single partition rule is not what the code applies. -/
theorem c1_counterexample :
    totalPopulation [blankRow, blankRow] ≠ specUniqueCount [blankRow, blankRow]
    ∧ count_unique_with_nulls [blankRow, blankRow] ≠ totalPopulation [blankRow, blankRow] := by
  constructor <;> decide

/-- C1, amended: *on groups with no blank identity key* (key absent or a
present non-empty string), the claim holds: `total_population`,
`count_unique_with_nulls` on the whole group, and `count_unique_with_nulls`
on every predicate-filtered subset all implement the spec's partition rule
(distinct present keys collapse, each keyless record counts as a distinct
person).  Records whose identity key is the *blank string* break the claim:
`total_population` collapses them as keyed while the filtered counts
double-count them (see the counterexample). -/
theorem c1_partition_amended (rows : List Row)
    (h : ∀ r ∈ rows, r.nationalId ≠ some "") :
    totalPopulation rows = specUniqueCount rows
    ∧ count_unique_with_nulls rows = specUniqueCount rows
    ∧ ∀ p : Row → Bool,
        count_unique_with_nulls (rows.filter p) = specUniqueCount (rows.filter p) := by
  refine ⟨(specUniqueCount_eq_totalPopulation h).symm, ?_, ?_⟩
  · rw [count_unique_with_nulls_eq_totalPopulation h, specUniqueCount_eq_totalPopulation h]
  · intro p
    rw [count_unique_with_nulls_eq_totalPopulation (no_blank_of_filter p h),
      specUniqueCount_eq_totalPopulation (no_blank_of_filter p h)]

/-- C1, witness: the amended theorem applied to a concrete two-record group
(one keyed record, one unkeyed record, no blank key). -/
theorem c1_partition_witness :
    totalPopulation [⟨some "f", some "1", some "Accepted", none, none, none⟩,
        ⟨some "f", none, none, none, none, none⟩]
      = specUniqueCount [⟨some "f", some "1", some "Accepted", none, none, none⟩,
        ⟨some "f", none, none, none, none, none⟩]
    ∧ count_unique_with_nulls [⟨some "f", some "1", some "Accepted", none, none, none⟩,
        ⟨some "f", none, none, none, none, none⟩]
      = specUniqueCount [⟨some "f", some "1", some "Accepted", none, none, none⟩,
        ⟨some "f", none, none, none, none, none⟩]
    ∧ ∀ p : Row → Bool,
        count_unique_with_nulls
            (([⟨some "f", some "1", some "Accepted", none, none, none⟩,
              ⟨some "f", none, none, none, none, none⟩] : List Row).filter p)
          = specUniqueCount
              (([⟨some "f", some "1", some "Accepted", none, none, none⟩,
                ⟨some "f", none, none, none, none, none⟩] : List Row).filter p) :=
  c1_partition_amended _ (by decide)

/-! ### C3 -/

/-- C3, counterexample.  For the one-record group `[blankRow]` the
"Accepted" filter keeps the single record, yet
`count_unique_with_nulls` returns 2 on it (the blank key is counted both
as a distinct valid ID and as a null), so the claimed bound
`filtered count ≤ filtered subset size` fails. -/
theorem c3_counterexample :
    ¬ (count_unique_with_nulls ([blankRow].filter (fun r => r.response == some "Accepted"))
        ≤ ([blankRow].filter (fun r => r.response == some "Accepted")).length) := by
  decide

/-- C3, amended.  For every group: `total_population ≤` record count, with
equality iff no *present* identity-key value repeats (the code treats the
blank string `''` as a present key here, so two blank keys count as a
repeat, where the spec's partition would not); and the bound
`count ≤ subset size` for the predicate-filtered counts holds for groups
with no blank identity key — with a blank key the filtered count can
exceed the subset size (see the counterexample). -/
theorem c3_count_bound_amended (rows : List Row) :
    totalPopulation rows ≤ rows.length
    ∧ (totalPopulation rows = rows.length ↔ (rows.filterMap Row.nationalId).Nodup)
    ∧ ((∀ r ∈ rows, r.nationalId ≠ some "") →
        ∀ p : Row → Bool,
          count_unique_with_nulls (rows.filter p) ≤ (rows.filter p).length) := by
  refine ⟨totalPopulation_le_length rows, totalPopulation_eq_length_iff rows, ?_⟩
  intro h p
  rw [count_unique_with_nulls_eq_totalPopulation (no_blank_of_filter p h)]
  exact totalPopulation_le_length _

/-! ### Projections of `phcMetrics` -/

theorem phcMetrics_total_population (n : String) (g : List Row) :
    (phcMetrics n g).total_population = totalPopulation g := rfl

theorem phcMetrics_communicated (n : String) (g : List Row) :
    (phcMetrics n g).communicated
      = count_unique_with_nulls (g.filter (fun r => r.response.isSome)) := rfl

theorem phcMetrics_accepted (n : String) (g : List Row) :
    (phcMetrics n g).accepted
      = count_unique_with_nulls (g.filter (fun r => r.response == some "Accepted")) := rfl

theorem phcMetrics_refused (n : String) (g : List Row) :
    (phcMetrics n g).refused
      = count_unique_with_nulls (g.filter (fun r => r.response == some "Refused")) := rfl

theorem phcMetrics_wrong_number (n : String) (g : List Row) :
    (phcMetrics n g).wrong_number
      = count_unique_with_nulls (g.filter (fun r => r.response == some "Wrong number")) := rfl

theorem phcMetrics_no_response (n : String) (g : List Row) :
    (phcMetrics n g).no_response
      = count_unique_with_nulls (g.filter (fun r => r.response == some "No response")) := rfl

theorem phcMetrics_enrolled (n : String) (g : List Row) :
    (phcMetrics n g).enrolled
      = count_unique_with_nulls (g.filter (fun r => r.enrollment == some "Yes")) := rfl

theorem phcMetrics_acceptance_rate (n : String) (g : List Row) :
    (phcMetrics n g).acceptance_rate
      = pyRound 1
          (if 0 < (phcMetrics n g).communicated then
            ((phcMetrics n g).accepted : ℚ) / (phcMetrics n g).communicated * 100
          else 0) := rfl

theorem phcMetrics_enrollment_rate (n : String) (g : List Row) :
    (phcMetrics n g).enrollment_rate
      = pyRound 1
          (if 0 < (phcMetrics n g).accepted then
            ((phcMetrics n g).enrolled : ℚ) / (phcMetrics n g).accepted * 100
          else 0) := rfl

theorem phcMetrics_communication_rate (n : String) (g : List Row) :
    (phcMetrics n g).communication_rate
      = pyRound 1
          (if 0 < (phcMetrics n g).total_population then
            ((phcMetrics n g).communicated : ℚ) / (phcMetrics n g).total_population * 100
          else 0) := rfl

/-! ### C10 -/

/-- Each response-category filter selects only rows whose `Response` is
present, so the filtered row list is a sublist of the `communicated` one. -/
theorem filter_response_eq_sublist (g : List Row) (v : String) :
    (g.filter (fun r => r.response == some v)).Sublist
      (g.filter (fun r => r.response.isSome)) := by
  apply List.monotone_filter_right
  intro r hr
  rw [beq_iff_eq] at hr
  simp [hr]

/-- C10: `count_unique_with_nulls` is monotone with respect to row-subset
(sublist) inclusion, and consequently each response-category count
(`accepted`, `refused`, `wrong_number`, `no_response`) of a facility is at
most its `communicated` count, since each category's filter selects a
subset of the rows with a present `Response`. -/
theorem c10_count_monotone :
    (∀ S T : List Row, S.Sublist T →
        count_unique_with_nulls S ≤ count_unique_with_nulls T)
    ∧ ∀ (n : String) (g : List Row),
        (phcMetrics n g).accepted ≤ (phcMetrics n g).communicated
        ∧ (phcMetrics n g).refused ≤ (phcMetrics n g).communicated
        ∧ (phcMetrics n g).wrong_number ≤ (phcMetrics n g).communicated
        ∧ (phcMetrics n g).no_response ≤ (phcMetrics n g).communicated := by
  refine ⟨fun S T h => count_unique_with_nulls_sublist_mono h, fun n g => ?_⟩
  refine ⟨?_, ?_, ?_, ?_⟩ <;>
    exact count_unique_with_nulls_sublist_mono (filter_response_eq_sublist g _)

/-! ### Rounding lemmas -/

theorem roundHalfEven_intCast (n : ℤ) : roundHalfEven (n : ℚ) = n := by
  simp [roundHalfEven]

theorem roundHalfEven_nonneg {x : ℚ} (hx : 0 ≤ x) : 0 ≤ roundHalfEven x := by
  have hf : 0 ≤ ⌊x⌋ := Int.floor_nonneg.2 hx
  unfold roundHalfEven
  split_ifs <;> omega

theorem roundHalfEven_le {x : ℚ} {N : ℤ} (h : x ≤ (N : ℚ)) : roundHalfEven x ≤ N := by
  have hfl : ⌊x⌋ ≤ N := by simpa using Int.floor_le_floor h
  have hflq : (⌊x⌋ : ℚ) ≤ x := Int.floor_le x
  unfold roundHalfEven
  split_ifs with h1 h2 h3
  · exact hfl
  · have hlt : (⌊x⌋ : ℚ) < (N : ℚ) := by linarith
    have : ⌊x⌋ < N := by exact_mod_cast hlt
    omega
  · exact hfl
  · have heq : (⌊x⌋ : ℚ) + 1/2 ≤ x := by linarith
    have hlt : (⌊x⌋ : ℚ) < (N : ℚ) := by linarith
    have : ⌊x⌋ < N := by exact_mod_cast hlt
    omega

theorem pyRound_nonneg {d : ℕ} {x : ℚ} (hx : 0 ≤ x) : 0 ≤ pyRound d x := by
  unfold pyRound
  apply div_nonneg
  · exact_mod_cast roundHalfEven_nonneg (by positivity)
  · positivity

theorem pyRound_le_hundred {d : ℕ} {x : ℚ} (h : x ≤ 100) : pyRound d x ≤ 100 := by
  unfold pyRound
  rw [div_le_iff₀ (by positivity)]
  have hle : x * 10 ^ d ≤ ((100 * 10 ^ d : ℤ) : ℚ) := by
    push_cast
    have hp : (0 : ℚ) ≤ 10 ^ d := by positivity
    nlinarith
  have hr := roundHalfEven_le hle
  calc (roundHalfEven (x * 10 ^ d) : ℚ) ≤ ((100 * 10 ^ d : ℤ) : ℚ) := by exact_mod_cast hr
    _ = 100 * 10 ^ d := by push_cast; ring

theorem pyRound_zero (d : ℕ) : pyRound d 0 = 0 := by
  have h0 : roundHalfEven 0 = 0 := by simpa using roundHalfEven_intCast 0
  simp [pyRound, h0]

theorem pyRound_eq_of_mul_eq {d : ℕ} {x : ℚ} {n : ℤ} (h : x * 10 ^ d = (n : ℚ)) :
    pyRound d x = (n : ℚ) / 10 ^ d := by
  rw [pyRound, h, roundHalfEven_intCast]

/-! ### C2 -/

/-- A group on which `enrollment_rate` exceeds 100: one accepted record
and two enrolled records that were never accepted (`Enrollment` is an
independent column, not a subset of `Response == 'Accepted'`). -/
def rateCexGroup : List Row :=
  [⟨some "f", some "a", some "Accepted", none, none, none⟩,
   ⟨some "f", some "b", none, none, none, some "Yes"⟩,
   ⟨some "f", some "c", none, none, none, some "Yes"⟩]

/-- C2, counterexample: on `rateCexGroup` the code computes `accepted = 1`,
`enrolled = 2`, hence `enrollment_rate = round(2/1*100, 1) = 200 > 100`.
Nothing constrains `enrolled` by `accepted`, so the claimed bound
`enrollment_rate ≤ 100` is false. -/
theorem c2_counterexample :
    ¬ ((phcMetrics "f" rateCexGroup).enrollment_rate ≤ 100) := by
  have ha : (phcMetrics "f" rateCexGroup).accepted = 1 := by decide
  have he : (phcMetrics "f" rateCexGroup).enrolled = 2 := by decide
  rw [phcMetrics_enrollment_rate, ha, he, if_pos (by norm_num)]
  have hm : ((2 : ℕ) : ℚ) / ((1 : ℕ) : ℚ) * 100 * 10 ^ (1 : ℕ) = ((2000 : ℤ) : ℚ) := by
    norm_num
  rw [pyRound_eq_of_mul_eq hm]
  norm_num

/-- C2, amended.  All three rates are nonnegative and exactly 0 when their
denominator is 0, and `acceptance_rate` is always at most 100 (its
numerator counts a sub-filter of its denominator's rows).  But
`enrollment_rate` need not be ≤ 100 (its numerator `enrolled` is counted
over an unrelated filter — see the counterexample), and
`communication_rate` is only guaranteed ≤ 100 on groups with no blank
(empty-string) identity key, where `communicated` cannot exceed
`total_population`. -/
theorem c2_rates_amended (n : String) (g : List Row) :
    0 ≤ (phcMetrics n g).acceptance_rate
    ∧ (phcMetrics n g).acceptance_rate ≤ 100
    ∧ 0 ≤ (phcMetrics n g).enrollment_rate
    ∧ 0 ≤ (phcMetrics n g).communication_rate
    ∧ ((phcMetrics n g).communicated = 0 → (phcMetrics n g).acceptance_rate = 0)
    ∧ ((phcMetrics n g).accepted = 0 → (phcMetrics n g).enrollment_rate = 0)
    ∧ ((phcMetrics n g).total_population = 0 → (phcMetrics n g).communication_rate = 0)
    ∧ ((∀ r ∈ g, r.nationalId ≠ some "") → (phcMetrics n g).communication_rate ≤ 100) := by
  refine ⟨?_, ?_, ?_, ?_, ?_, ?_, ?_, ?_⟩
  · rw [phcMetrics_acceptance_rate]
    apply pyRound_nonneg
    split_ifs <;> positivity
  · rw [phcMetrics_acceptance_rate]
    split_ifs with hc
    · apply pyRound_le_hundred
      have hac : (phcMetrics n g).accepted ≤ (phcMetrics n g).communicated :=
        count_unique_with_nulls_sublist_mono (filter_response_eq_sublist g "Accepted")
      have hc' : (0 : ℚ) < ((phcMetrics n g).communicated : ℚ) := by exact_mod_cast hc
      have hdiv : ((phcMetrics n g).accepted : ℚ) / (phcMetrics n g).communicated ≤ 1 :=
        (div_le_one hc').2 (by exact_mod_cast hac)
      nlinarith
    · rw [pyRound_zero]; norm_num
  · rw [phcMetrics_enrollment_rate]
    apply pyRound_nonneg
    split_ifs <;> positivity
  · rw [phcMetrics_communication_rate]
    apply pyRound_nonneg
    split_ifs <;> positivity
  · intro h
    rw [phcMetrics_acceptance_rate, h, if_neg (by norm_num), pyRound_zero]
  · intro h
    rw [phcMetrics_enrollment_rate, h, if_neg (by norm_num), pyRound_zero]
  · intro h
    rw [phcMetrics_communication_rate, h, if_neg (by norm_num), pyRound_zero]
  · intro h
    rw [phcMetrics_communication_rate]
    split_ifs with hp
    · apply pyRound_le_hundred
      have hct : (phcMetrics n g).communicated ≤ (phcMetrics n g).total_population := by
        rw [phcMetrics_communicated, phcMetrics_total_population,
          ← count_unique_with_nulls_eq_totalPopulation h]
        exact count_unique_with_nulls_sublist_mono (List.filter_sublist g)
      have hp' : (0 : ℚ) < ((phcMetrics n g).total_population : ℚ) := by exact_mod_cast hp
      have hdiv :
          ((phcMetrics n g).communicated : ℚ) / (phcMetrics n g).total_population ≤ 1 :=
        (div_le_one hp').2 (by exact_mod_cast hct)
      nlinarith
    · rw [pyRound_zero]; norm_num

/-! ### Name-normalizer lemmas -/

/-- Whether `pat` occurs as a contiguous substring. -/
def containsSub (pat : List Char) : List Char → Bool
  | [] => pat.isPrefixOf []
  | c :: rest => pat.isPrefixOf (c :: rest) || containsSub pat rest

theorem replaceAllGo_of_not_contains {pat : List Char} :
    ∀ (fuel : Nat) (l : List Char), l.length ≤ fuel → containsSub pat l = false →
      replaceAllGo pat fuel l = l := by
  intro fuel
  induction fuel with
  | zero =>
    intro l hl _
    cases l with
    | nil => rfl
    | cons c rest => simp at hl
  | succ fuel ih =>
    intro l hl h
    cases l with
    | nil => rfl
    | cons c rest =>
      rw [containsSub, Bool.or_eq_false_iff] at h
      rw [replaceAllGo, if_neg (fun hand => by rw [h.1] at hand; exact absurd hand.1 (by simp))]
      have : rest.length ≤ fuel := by simpa using hl
      rw [ih rest this h.2]

/-- If `pat` does not occur in `l`, `str.replace(pat, '')` is the identity. -/
theorem replaceAll_of_not_contains {pat l : List Char} (h : containsSub pat l = false) :
    replaceAll pat l = l :=
  replaceAllGo_of_not_contains l.length l le_rfl h

/-- If no listed prefix matches, the prefix-stripping loop is the identity. -/
theorem stripFirstMatching_of_no_match :
    ∀ {ps : List (List Char)} {l : List Char},
      (∀ p ∈ ps, p.isPrefixOf l = false) → stripFirstMatching ps l = l := by
  intro ps
  induction ps with
  | nil => intro l _; rfl
  | cons p ps ih =>
    intro l h
    rw [stripFirstMatching, if_neg ?hneg]
    · exact ih fun q hq => h q (List.mem_cons_of_mem p hq)
    case hneg =>
      intro hp
      have hfalse := h p (List.mem_cons_self p ps)
      rw [hp] at hfalse
      exact Bool.noConfusion hfalse

theorem stripLeft_idem (l : List Char) : stripLeft (stripLeft l) = stripLeft l := by
  unfold stripLeft
  exact List.dropWhile_idempotent _ _

theorem stripRight_idem (l : List Char) : stripRight (stripRight l) = stripRight l := by
  unfold stripRight
  rw [List.reverse_reverse, List.dropWhile_idempotent]

theorem stripRight_isPrefix (l : List Char) : (stripRight l).IsPrefix l := by
  have h : List.IsSuffix (l.reverse.dropWhile Char.isWhitespace) l.reverse :=
    List.dropWhile_suffix _
  have h2 := List.reverse_prefix.mpr h
  simpa [stripRight] using h2

/-- A prefix of a left-stripped list is itself left-stripped. -/
theorem stripLeft_of_isPrefix {l m : List Char} (hl : stripLeft l = l) (hm : m.IsPrefix l) :
    stripLeft m = m := by
  cases m with
  | nil => rfl
  | cons c m' =>
    obtain ⟨t, ht⟩ := hm
    have hc : Char.isWhitespace c = false := by
      by_contra hcon
      rw [Bool.not_eq_false] at hcon
      rw [← ht] at hl
      unfold stripLeft at hl
      rw [List.cons_append, List.dropWhile_cons, if_pos (by simp [hcon])] at hl
      have hlen := congrArg List.length hl
      have hsuf : List.IsSuffix ((m' ++ t).dropWhile Char.isWhitespace) (m' ++ t) :=
        List.dropWhile_suffix _
      have hle := hsuf.sublist.length_le
      rw [List.length_cons] at hlen
      omega
    unfold stripLeft
    rw [List.dropWhile_cons, if_neg (by simp [hc])]

/-- Python's `strip()` is idempotent. -/
theorem pyStrip_idem (l : List Char) : pyStrip (pyStrip l) = pyStrip l := by
  unfold pyStrip
  have hm : stripLeft (stripLeft l) = stripLeft l := stripLeft_idem l
  have h1 : stripLeft (stripRight (stripLeft l)) = stripRight (stripLeft l) :=
    stripLeft_of_isPrefix hm (stripRight_isPrefix (stripLeft l))
  rw [h1, stripRight_idem]

/-! ### C4 -/

/-- C4, counterexample: `clean_phc_name` is *not* idempotent.  On
`"PHC PHC A"` one application strips the one `"PHC "` prefix and yields
`"PHC A"`; applying it again strips the now-exposed second `"PHC "` and
yields `"A"`, so `normalize(normalize(x)) ≠ normalize(x)`. -/
theorem c4_counterexample :
    clean_phc_name (some (clean_phc_name (some "PHC PHC A".toList)))
      ≠ clean_phc_name (some "PHC PHC A".toList) := by
  decide

/-- C4, amended.  `clean_phc_name` is total by construction and returns the
empty string on absent input, but it is idempotent only on inputs whose
normalized form contains no `'.xlsx'` occurrence and starts with none of
the removable prefixes; a normalized name that again starts with a listed
prefix is stripped further by a second application (see the
counterexample). -/
theorem c4_normalize_amended :
    clean_phc_name none = []
    ∧ ∀ s : List Char,
        containsSub xlsxExt (clean_phc_name (some s)) = false →
        (∀ p ∈ prefixes_to_remove, p.isPrefixOf (clean_phc_name (some s)) = false) →
        clean_phc_name (some (clean_phc_name (some s))) = clean_phc_name (some s) := by
  refine ⟨rfl, fun s h1 h2 => ?_⟩
  have hy : clean_phc_name (some (clean_phc_name (some s)))
      = pyStrip (stripFirstMatching prefixes_to_remove
          (replaceAll xlsxExt (clean_phc_name (some s)))) := rfl
  rw [hy, replaceAll_of_not_contains h1, stripFirstMatching_of_no_match h2]
  have hs : clean_phc_name (some s)
      = pyStrip (stripFirstMatching prefixes_to_remove (replaceAll xlsxExt s)) := rfl
  rw [hs, pyStrip_idem]

/-- C4, witness: the amended idempotence applied to the concrete input
`"A.xlsx"`, whose normalized form `"A"` contains no `'.xlsx'` and starts
with no removable prefix. -/
theorem c4_normalize_witness :
    containsSub xlsxExt (clean_phc_name (some "A.xlsx".toList)) = false
    ∧ (∀ p ∈ prefixes_to_remove,
        p.isPrefixOf (clean_phc_name (some "A.xlsx".toList)) = false)
    ∧ clean_phc_name (some (clean_phc_name (some "A.xlsx".toList)))
        = clean_phc_name (some "A.xlsx".toList) :=
  ⟨by decide, by decide, c4_normalize_amended.2 _ (by decide) (by decide)⟩

/-! ### C5 -/

/-- Case analysis of the prefix-stripping loop: either no listed prefix
matches and the loop is the identity, or the list splits around the *first*
matching prefix `p` (everything before `p` fails to match) and the loop
returns the input with exactly `p` dropped. -/
theorem stripFirstMatching_cases (ps : List (List Char)) (l : List Char) :
    (stripFirstMatching ps l = l ∧ ∀ p ∈ ps, p.isPrefixOf l = false)
    ∨ ∃ ps₁ p ps₂, ps = ps₁ ++ p :: ps₂
        ∧ (∀ q ∈ ps₁, q.isPrefixOf l = false)
        ∧ p.isPrefixOf l = true
        ∧ stripFirstMatching ps l = l.drop p.length := by
  induction ps with
  | nil => exact Or.inl ⟨rfl, by simp⟩
  | cons p ps ih =>
    by_cases hp : p.isPrefixOf l = true
    · right
      exact ⟨[], p, ps, rfl, by simp, hp, by rw [stripFirstMatching, if_pos hp]⟩
    · have hp' : p.isPrefixOf l = false := by
        revert hp; cases p.isPrefixOf l <;> simp
      have hstep : stripFirstMatching (p :: ps) l = stripFirstMatching ps l := by
        rw [stripFirstMatching, if_neg hp]
      rcases ih with ⟨heq, hall⟩ | ⟨ps₁, q, ps₂, hps, hnone, hq, heq⟩
      · refine Or.inl ⟨by rw [hstep, heq], fun r hr => ?_⟩
        rcases List.mem_cons.1 hr with h | h
        · rw [h]; exact hp'
        · exact hall r h
      · refine Or.inr ⟨p :: ps₁, q, ps₂, by rw [hps, List.cons_append], fun r hr => ?_,
          hq, by rw [hstep, heq]⟩
        rcases List.mem_cons.1 hr with h | h
        · rw [h]; exact hp'
        · exact hnone r h

/-- C5, counterexample: `clean_phc_name` does **not** collapse internal
whitespace runs.  On `"A  B"` the code returns `"A  B"` unchanged, while
the spec's normalizer (trim, first-matching prefix, trailing suffix,
collapse whitespace) returns `"A B"`. -/
theorem c5_counterexample :
    clean_phc_name (some "A  B".toList) ≠ specNormalize (some "A  B".toList) := by
  decide

/-- C5, amended.  What the code actually does, in order: it first deletes
**every** occurrence of `'.xlsx'` anywhere in the raw name (not only a
trailing one), then removes at most one prefix — the first matching entry
of `prefixes_to_remove`, no later entry being tried — from the
still-untrimmed name, and only then trims surrounding whitespace; internal
whitespace runs are never collapsed (see the counterexample). -/
theorem c5_normalize_steps_amended (s : List Char) :
    (clean_phc_name (some s) = pyStrip (replaceAll xlsxExt s)
      ∧ ∀ p ∈ prefixes_to_remove, p.isPrefixOf (replaceAll xlsxExt s) = false)
    ∨ ∃ ps₁ p ps₂, prefixes_to_remove = ps₁ ++ p :: ps₂
        ∧ (∀ q ∈ ps₁, q.isPrefixOf (replaceAll xlsxExt s) = false)
        ∧ p.isPrefixOf (replaceAll xlsxExt s) = true
        ∧ clean_phc_name (some s) = pyStrip ((replaceAll xlsxExt s).drop p.length) := by
  have hdef : clean_phc_name (some s)
      = pyStrip (stripFirstMatching prefixes_to_remove (replaceAll xlsxExt s)) := rfl
  rcases stripFirstMatching_cases prefixes_to_remove (replaceAll xlsxExt s) with
    ⟨heq, hall⟩ | ⟨ps₁, p, ps₂, hps, hnone, hp, heq⟩
  · exact Or.inl ⟨by rw [hdef, heq], hall⟩
  · exact Or.inr ⟨ps₁, p, ps₂, hps, hnone, hp, by rw [hdef, heq]⟩

/-! ### C8 -/

theorem mem_insertPopDesc {x a : PhcData} {l : List PhcData} :
    a ∈ insertPopDesc x l ↔ a = x ∨ a ∈ l := by
  induction l with
  | nil => simp [insertPopDesc]
  | cons y ys ih =>
    rw [insertPopDesc]
    split_ifs with h
    · simp only [List.mem_cons, ih]
      tauto
    · simp only [List.mem_cons]

theorem pairwise_insertPopDesc {x : PhcData} {l : List PhcData}
    (h : List.Pairwise (fun a b => b.total_population ≤ a.total_population) l) :
    List.Pairwise (fun a b => b.total_population ≤ a.total_population) (insertPopDesc x l) := by
  induction l with
  | nil => simp [insertPopDesc]
  | cons y ys ih =>
    rcases List.pairwise_cons.1 h with ⟨hy, hys⟩
    rw [insertPopDesc]
    split_ifs with hxy
    · refine List.pairwise_cons.2 ⟨fun a ha => ?_, ih hys⟩
      rcases mem_insertPopDesc.1 ha with rfl | ha'
      · omega
      · exact hy a ha'
    · refine List.pairwise_cons.2 ⟨fun a ha => ?_, h⟩
      rcases List.mem_cons.1 ha with rfl | ha'
      · omega
      · have := hy a ha'
        omega

theorem sortPopDesc_pairwise (l : List PhcData) :
    List.Pairwise (fun a b => b.total_population ≤ a.total_population) (sortPopDesc l) := by
  induction l with
  | nil => simp [sortPopDesc]
  | cons x xs ih => exact pairwise_insertPopDesc ih

theorem insertPopDesc_perm (x : PhcData) (l : List PhcData) :
    (insertPopDesc x l).Perm (x :: l) := by
  induction l with
  | nil => exact List.Perm.refl _
  | cons y ys ih =>
    rw [insertPopDesc]
    split_ifs with h
    · exact (ih.cons y).trans (List.Perm.swap x y ys)
    · exact List.Perm.refl _

theorem sortPopDesc_perm (l : List PhcData) : (sortPopDesc l).Perm l := by
  induction l with
  | nil => exact List.Perm.refl _
  | cons x xs ih => exact (insertPopDesc_perm x (sortPopDesc xs)).trans (ih.cons x)

/-- Inserting an element never reorders the records that share any given
population value: the insertion point lies strictly after the records with
a larger population and strictly before the rest, so per-value order is the
encounter order. -/
theorem filter_insertPopDesc (x : PhcData) (l : List PhcData) (v : ℕ) :
    (insertPopDesc x l).filter (fun a => a.total_population == v)
      = ((x :: l).filter (fun a => a.total_population == v)) := by
  induction l with
  | nil => rfl
  | cons y ys ih =>
    rw [insertPopDesc]
    split_ifs with hxy
    · cases hpy : (y.total_population == v) <;> cases hpx : (x.total_population == v)
      · simp [List.filter_cons, hpy, hpx, ih]
      · simp [List.filter_cons, hpy, hpx, ih]
      · simp [List.filter_cons, hpy, hpx, ih]
      · exfalso
        rw [beq_iff_eq] at hpy hpx
        omega
    · rfl

theorem sortPopDesc_filter (l : List PhcData) (v : ℕ) :
    (sortPopDesc l).filter (fun a => a.total_population == v)
      = l.filter (fun a => a.total_population == v) := by
  induction l with
  | nil => rfl
  | cons x xs ih =>
    rw [sortPopDesc, filter_insertPopDesc, List.filter_cons, List.filter_cons]
    cases hx : (x.total_population == v) <;> simp [hx, ih]

/-- C8: within each sector report, the facility metrics are a permutation
of the grouped (encounter-order) list, ordered by `total_population`
descending, and for every population value the records carrying that value
appear exactly in their encounter order — i.e. the sort is stable. -/
theorem c8_sector_sorted_stable (df : List Row) :
    List.Pairwise (fun a b => b.total_population ≤ a.total_population)
        (process_sector_data df)
    ∧ (process_sector_data df).Perm (sectorGroups df)
    ∧ ∀ v : ℕ,
        (process_sector_data df).filter (fun a => a.total_population == v)
          = (sectorGroups df).filter (fun a => a.total_population == v) :=
  ⟨sortPopDesc_pairwise _, sortPopDesc_perm _, fun v => sortPopDesc_filter _ v⟩

/-! ### C7 -/

/-- Folding `addPhc` over a facility list adds exactly the per-field sums
of that list to the accumulator; `total_phc_centers` and the rate fields
are untouched. -/
theorem foldl_addPhc_eq (l : List PhcData) (acc : Overview) :
    l.foldl addPhc acc = { acc with
      total_population := acc.total_population + (l.map PhcData.total_population).sum
      total_communicated := acc.total_communicated + (l.map PhcData.communicated).sum
      total_accepted := acc.total_accepted + (l.map PhcData.accepted).sum
      total_refused := acc.total_refused + (l.map PhcData.refused).sum
      total_wrong_number := acc.total_wrong_number + (l.map PhcData.wrong_number).sum
      total_no_response := acc.total_no_response + (l.map PhcData.no_response).sum
      total_enrolled := acc.total_enrolled + (l.map PhcData.enrolled).sum
      total_arrived := acc.total_arrived + (l.map PhcData.arrived).sum
      total_in_person := acc.total_in_person + (l.map PhcData.in_person_visits).sum
      total_virtual := acc.total_virtual + (l.map PhcData.virtual_visits).sum } := by
  induction l generalizing acc with
  | nil => simp
  | cons p t ih =>
    rw [List.foldl_cons, ih]
    simp only [addPhc, List.map_cons, List.sum_cons]
    congr 1 <;> omega

/-- The sector loop of `calculate_overview_metrics` adds the flattened
per-facility sums and the facility count. -/
theorem foldl_sectors_eq (sd : List (String × List PhcData)) (acc : Overview) :
    sd.foldl
        (fun acc s => s.2.foldl addPhc
          { acc with total_phc_centers := acc.total_phc_centers + s.2.length })
        acc
      = { acc with
          total_population := acc.total_population
            + ((sd.map Prod.snd).flatten.map PhcData.total_population).sum
          total_communicated := acc.total_communicated
            + ((sd.map Prod.snd).flatten.map PhcData.communicated).sum
          total_accepted := acc.total_accepted
            + ((sd.map Prod.snd).flatten.map PhcData.accepted).sum
          total_refused := acc.total_refused
            + ((sd.map Prod.snd).flatten.map PhcData.refused).sum
          total_wrong_number := acc.total_wrong_number
            + ((sd.map Prod.snd).flatten.map PhcData.wrong_number).sum
          total_no_response := acc.total_no_response
            + ((sd.map Prod.snd).flatten.map PhcData.no_response).sum
          total_enrolled := acc.total_enrolled
            + ((sd.map Prod.snd).flatten.map PhcData.enrolled).sum
          total_arrived := acc.total_arrived
            + ((sd.map Prod.snd).flatten.map PhcData.arrived).sum
          total_in_person := acc.total_in_person
            + ((sd.map Prod.snd).flatten.map PhcData.in_person_visits).sum
          total_virtual := acc.total_virtual
            + ((sd.map Prod.snd).flatten.map PhcData.virtual_visits).sum
          total_phc_centers := acc.total_phc_centers
            + (sd.map (fun s => s.2.length)).sum } := by
  induction sd generalizing acc with
  | nil => simp
  | cons s t ih =>
    rw [List.foldl_cons, foldl_addPhc_eq, ih]
    simp only [List.map_cons, List.flatten_cons, List.map_append, List.sum_append,
      List.sum_cons]
    congr 1 <;> omega

/-- C7: the overview's totals are the verbatim sums of the per-facility
counts across all loaded sectors (no re-deduplication across facilities),
`total_phc_centers` counts the facilities, and each of the three overview
rates is recomputed from the summed counts — rounded to two decimal
places, 0 when its denominator is 0. -/
theorem c7_overview_sums (sd : List (String × List PhcData)) :
    (calculate_overview_metrics sd).total_population
        = ((sd.map Prod.snd).flatten.map PhcData.total_population).sum
    ∧ (calculate_overview_metrics sd).total_communicated
        = ((sd.map Prod.snd).flatten.map PhcData.communicated).sum
    ∧ (calculate_overview_metrics sd).total_accepted
        = ((sd.map Prod.snd).flatten.map PhcData.accepted).sum
    ∧ (calculate_overview_metrics sd).total_refused
        = ((sd.map Prod.snd).flatten.map PhcData.refused).sum
    ∧ (calculate_overview_metrics sd).total_wrong_number
        = ((sd.map Prod.snd).flatten.map PhcData.wrong_number).sum
    ∧ (calculate_overview_metrics sd).total_no_response
        = ((sd.map Prod.snd).flatten.map PhcData.no_response).sum
    ∧ (calculate_overview_metrics sd).total_enrolled
        = ((sd.map Prod.snd).flatten.map PhcData.enrolled).sum
    ∧ (calculate_overview_metrics sd).total_arrived
        = ((sd.map Prod.snd).flatten.map PhcData.arrived).sum
    ∧ (calculate_overview_metrics sd).total_in_person
        = ((sd.map Prod.snd).flatten.map PhcData.in_person_visits).sum
    ∧ (calculate_overview_metrics sd).total_virtual
        = ((sd.map Prod.snd).flatten.map PhcData.virtual_visits).sum
    ∧ (calculate_overview_metrics sd).total_phc_centers
        = (sd.map (fun s => s.2.length)).sum
    ∧ (calculate_overview_metrics sd).communication_rate
        = (if 0 < (calculate_overview_metrics sd).total_population then
            pyRound 2 (((calculate_overview_metrics sd).total_communicated : ℚ)
              / (calculate_overview_metrics sd).total_population * 100)
          else 0)
    ∧ (calculate_overview_metrics sd).acceptance_rate
        = (if 0 < (calculate_overview_metrics sd).total_communicated then
            pyRound 2 (((calculate_overview_metrics sd).total_accepted : ℚ)
              / (calculate_overview_metrics sd).total_communicated * 100)
          else 0)
    ∧ (calculate_overview_metrics sd).enrollment_rate
        = (if 0 < (calculate_overview_metrics sd).total_accepted then
            pyRound 2 (((calculate_overview_metrics sd).total_enrolled : ℚ)
              / (calculate_overview_metrics sd).total_accepted * 100)
          else 0) := by
  unfold calculate_overview_metrics
  rw [foldl_sectors_eq]
  simp [overviewInit]

/-! ### C6 and C9 -/

/-- The sector loop of `process_raw_data`: the loaded sectors land (in
order) in the snapshot's sector map, the failed ones (in order) in the
skipped list. -/
theorem foldl_loader (load : String → Option (List Row)) (sectors : List String)
    (acc : List (String × List PhcData) × List String) :
    sectors.foldl
        (fun acc sector =>
          match load sector with
          | none => (acc.1, acc.2 ++ [sector])
          | some df => (acc.1 ++ [(sectorKey sector, process_sector_data df)], acc.2))
        acc
      = (acc.1 ++ sectors.filterMap
            (fun s => (load s).map (fun df => (sectorKey s, process_sector_data df))),
         acc.2 ++ sectors.filter (fun s => (load s).isNone)) := by
  induction sectors generalizing acc with
  | nil => simp
  | cons s t ih =>
    rw [List.foldl_cons]
    cases h : load s with
    | none =>
      rw [ih]
      simp [h, List.filterMap_cons, List.filter_cons]
    | some df =>
      rw [ih]
      simp [h, List.filterMap_cons, List.filter_cons]

/-- C6: the aggregation is a deterministic function of the input rows —
two runs over the same loaded data produce snapshots that agree on the
whole sector map, the whole overview and the skip list, and can differ
only in the `last_updated` timestamp (which is an explicit parameter of
the embedded pipeline and flows into no other field). -/
theorem c6_deterministic (t₁ t₂ : String) (load : String → Option (List Row)) :
    (process_raw_data t₁ load).1.sectors = (process_raw_data t₂ load).1.sectors
    ∧ (process_raw_data t₁ load).1.overview = (process_raw_data t₂ load).1.overview
    ∧ (process_raw_data t₁ load).2 = (process_raw_data t₂ load).2 :=
  ⟨rfl, rfl, rfl⟩

/-- C9: a sector whose sheet fails to load is skipped and reported while
the rest are processed: the snapshot's sector map holds exactly the
successfully loaded sectors (in sheet order, under their short names), the
skip report lists exactly the failed ones, and the overview is computed
from the loaded sectors alone.  `process_raw_data` is total, so a failed
sheet never aborts the run. -/
theorem c9_skip_and_continue (now : String) (load : String → Option (List Row)) :
    (process_raw_data now load).1.sectors
        = sectorSheets.filterMap
            (fun s => (load s).map (fun df => (sectorKey s, process_sector_data df)))
    ∧ (process_raw_data now load).2 = sectorSheets.filter (fun s => (load s).isNone)
    ∧ (process_raw_data now load).1.overview
        = calculate_overview_metrics ((process_raw_data now load).1.sectors) := by
  unfold process_raw_data
  rw [foldl_loader]
  simp

end RTO
